import Mathlib

/-!
Verification development for the `bk` terminal epub reader (`src/main.rs`).

The embedding below models, faithfully to the Rust source:
  * `wrap` (src/main.rs lines 185-212), the greedy line wrapper, over
    `List Char` with positional indices (the source indexes bytes; the
    program's stated model is one display column per character, and all
    inputs considered here are single-byte characters);
  * `Epub::render` (lines 27-66), the markup flattener;
  * the manifest/spine/TOC resolution steps of `Epub::get_toc`
    (lines 76-182) over an association-list model of `HashMap`
    (unique keys, `remove` returns the mapped value and deletes the entry);
  * the `Bk` reader state machine (lines 228-535): scrolling, search,
    navigation and resize, with chapter loading abstracted by a `Book`
    function (archive read + XML parse + render + wrap at a given width).

Fallible operations return `Option`: `none` models a Rust panic
(out-of-range slice or index, `unwrap` failure, integer underflow of
`usize`/`u16` subtraction in a debug build, division by zero).
-/

/-! ## Line wrapper (`fn wrap`, src/main.rs 185-212) -/

/-- Rust slice `&text[s..e]`: defined only for `s ≤ e ≤ text.len()`,
otherwise the indexing panics (`none`). -/
def listSlice (text : List Char) (s e : Nat) : Option (List Char) :=
  if s ≤ e ∧ e ≤ text.length then some ((text.drop s).take (e - s)) else none

/-- The loop of `wrap`.  Arguments mirror the Rust locals: the remaining
characters (with `i` their absolute offset), `start` of the current output
line, `space` the offset of the most recent space, `line` the running line
length counter, `word` the running word length counter, and the accumulated
output. After the loop, the source pushes `&text[start..]`; since `start`
provably never exceeds `text.length`, `text.drop start` is that slice. -/
def wrapAux (text : List Char) (width : Nat) :
    List Char → Nat → Nat → Nat → Nat → Nat → List (List Char) →
    Option (List (List Char))
  | [], _, start, _, _, _, acc => some (acc ++ [text.drop start])
  | c :: rest, i, start, space, line, word, acc =>
    let space2 := if c = ' ' then i else space
    let word2 := if c = ' ' then 0 else word + 1
    if line = width then
      match listSlice text start space2 with
      | none => none
      | some seg =>
        wrapAux text width rest (i + 1) (space2 + 1) space2 word2 word2 (acc ++ [seg])
    else
      wrapAux text width rest (i + 1) start space2 (line + 1) word2 acc

/-- `fn wrap(text: String, width: u16) -> Vec<String>`. -/
def wrap (text : List Char) (width : Nat) : Option (List (List Char)) :=
  wrapAux text width text 0 0 0 0 0 []

/-- Joining display lines back with single spaces (used to state the
re-joining property of the spec). -/
def joinSpaces (ls : List (List Char)) : List Char :=
  List.intercalate [' '] ls

/-! ## Iterator helpers used by `really_search` (src/main.rs 340-359) -/

/-- Rust `Iterator::position`: index of the first element satisfying `f`. -/
def position (f : α → Bool) : List α → Option Nat
  | [] => none
  | x :: xs =>
    if f x then some 0
    else match position f xs with
      | some i => some (i + 1)
      | none => none

/-- Rust `Iterator::rposition`: index of the last element satisfying `f`. -/
def rposition (f : α → Bool) : List α → Option Nat
  | [] => none
  | x :: xs =>
    match rposition f xs with
    | some i => some (i + 1)
    | none => if f x then some 0 else none

/-- Rust `<[_]>::starts_with` on characters. -/
def startsWithList : List Char → List Char → Bool
  | [], _ => true
  | _ :: _, [] => false
  | a :: as, b :: bs => a = b && startsWithList as bs

/-- Rust `str::contains` with a literal pattern: `needle` occurs as a
contiguous substring of `hay`. -/
def containsSub (needle : List Char) : List Char → Bool
  | [] => startsWithList needle []
  | c :: rest => startsWithList needle (c :: rest) || containsSub needle rest

/-! ## Markup flattening (`Epub::render`, src/main.rs 27-66) -/

mutual

/-- A parsed XML node as exposed by the markup parser: a text node or an
element with a tag name and children (a mutual list, keeping recursion
over the tree structural). -/
inductive XNode where
  | text (s : String)
  | elem (tag : String) (children : XNodes)

/-- A list of sibling nodes. -/
inductive XNodes where
  | nil
  | cons (hd : XNode) (tl : XNodes)

end

/-- `acc.last_mut().unwrap().push(text)`: append a fragment to the last
accumulated line.  Callers establish `acc ≠ []` first; on `[]` the source
panics (guarded at the call site in `renderNode`). -/
def pushLast : List (List String) → String → List (List String)
  | [], _ => []
  | [l], s => [l ++ [s]]
  | l :: ls, s => l :: pushLast ls s

mutual

/-- `Epub::render(acc, n)`, one node.  `none` models the
`acc.last_mut().unwrap()` panic on an empty accumulator.  The guard
`text.trim().is_empty()` holds exactly when every character is
whitespace. -/
def renderNode (acc : List (List String)) : XNode → Option (List (List String))
  | .text s =>
    if s.toList.all Char.isWhitespace then some acc
    else
      match acc with
      | [] => none
      | l :: ls => some (pushLast (l :: ls) s)
  | .elem tag cs =>
    match tag with
    | "h1" | "h2" | "h3" | "h4" | "h5" | "h6" =>
      match renderNodes (acc ++ [["\x1b[1m"]]) cs with
      | none => none
      | some a => some (a ++ [["\x1b[0m"]])
    | "blockquote" | "p" =>
      match renderNodes (acc ++ [[]]) cs with
      | none => none
      | some a => some (a ++ [[]])
    | "li" =>
      match renderNodes (acc ++ [["- "]]) cs with
      | none => none
      | some a => some (a ++ [[]])
    | "br" => some (acc ++ [[]])
    | _ => renderNodes acc cs

/-- `for c in n.children() { Self::render(acc, c); }`. -/
def renderNodes (acc : List (List String)) : XNodes → Option (List (List String))
  | .nil => some acc
  | .cons n ns =>
    match renderNode acc n with
    | none => none
    | some a => renderNodes a ns

end

/-- Chapter rendering as performed by `Bk::get_chapter` (src/main.rs
313-315): the accumulator starts as `Vec::new()` — empty, not seeded. -/
def renderChapter (body : XNode) : Option (List (List String)) :=
  renderNode [] body

/-! ## Manifest / spine / TOC resolution (`Epub::get_toc`, src/main.rs 76-182)

`HashMap<&str, &str>` is modelled as an association list with pairwise
distinct keys (hypotheses of the theorems); `HashMap::get` is `alookup`
and `HashMap::remove` is `mapRemove`, which returns the mapped value and
the map without that entry. -/

/-- `HashMap::get(k)` on the association-list model. -/
def alookup (k : String) : List (String × String) → Option String
  | [] => none
  | (k2, v) :: rest => if k2 = k then some v else alookup k rest

/-- `HashMap::remove(k)`: the mapped value together with the remaining map. -/
def mapRemove (k : String) : List (String × String) →
    Option (String × List (String × String))
  | [] => none
  | (k2, v) :: rest =>
    if k2 = k then some (v, rest)
    else
      match mapRemove k rest with
      | none => none
      | some (v2, rest2) => some (v2, (k2, v) :: rest2)

/-- Spine resolution (src/main.rs 105-113): each spine `idref` is resolved
against the manifest and the matched entry is **removed**;
`manifest.remove(..).unwrap()` panics (`none`) on a dangling reference.
Returns the spine hrefs in order and the drained manifest. -/
def resolveSpine : List (String × String) → List String →
    Option (List String × List (String × String))
  | manifest, [] => some ([], manifest)
  | manifest, idref :: rest =>
    match mapRemove idref manifest with
    | none => none
    | some (href, manifest2) =>
      match resolveSpine manifest2 rest with
      | none => none
      | some (hrefs, m) => some (href :: hrefs, m)

/-- The legacy-dialect TOC step (src/main.rs 144-146):
`manifest.get("ncx").unwrap()` against the manifest left after spine
resolution; `none` models the `unwrap` panic aborting resolution. -/
def legacyTocLookup (manifestAfterSpine : List (String × String)) : Option String :=
  alookup "ncx" manifestAfterSpine

/-- The final chapter-list construction (src/main.rs 173-181): for each
spine path in order, the title is the matched (and removed) TOC entry, or
the zero-based ordinal rendered in decimal; the path is resolved against
the package directory (abstracted by `rootJoin`). -/
def buildChapters (rootJoin : String → String) :
    List String → Nat → List (String × String) → List (String × String)
  | [], _, _ => []
  | p :: ps, i, toc =>
    match mapRemove p toc with
    | some (title, toc2) => (title, rootJoin p) :: buildChapters rootJoin ps (i + 1) toc2
    | none => (toString i, rootJoin p) :: buildChapters rootJoin ps (i + 1) toc

/-! ## Reader state machine (`struct Bk`, src/main.rs 214-535)

Chapter loading (`Epub::get_text` + XML parse + `Epub::render` + `wrap`,
src/main.rs 310-323) is abstracted by a `Book` function from the wrap
width and the chapter content path to the flattened wrapped-line buffer;
everything downstream of it is modelled statement by statement. -/

/-- The composite chapter loader: width and content path to wrapped lines. -/
def Book : Type := Nat → String → List (List Char)

/-- `enum Mode` (src/main.rs 221-226). -/
inductive Mode where
  | help
  | nav
  | read
  | search
deriving DecidableEq

/-- `enum Direction` (src/main.rs 216-219). -/
inductive Direction where
  | forward
  | backward

/-- The `crossterm::event::KeyCode` constructors the source matches on;
`other` stands for every remaining key. `endk` is `KeyCode::End`. -/
inductive KeyCode where
  | esc
  | enter
  | tab
  | down
  | up
  | left
  | right
  | pageUp
  | pageDown
  | home
  | endk
  | f (n : Nat)
  | char (c : Char)
  | other

/-- The two event kinds the loop handles (src/main.rs 280-298); mouse
events are ignored by the source. -/
inductive Event where
  | key (k : KeyCode)
  | resize (cols rows : Nat)

/-- `struct Bk` (src/main.rs 228-241) minus the epub handle (abstracted by
`Book`).  `chapter` is the wrapped-line buffer, `toc` the chapter list of
(title, content path), `search` the search buffer. -/
structure Bk where
  mode : Mode
  cols : Nat
  chapter : List (List Char)
  chapter_idx : Nat
  nav_idx : Nat
  nav_top : Nat
  pos : Nat
  rows : Nat
  toc : List (String × String)
  pad : Nat
  search : List Char

/-- `Bk::get_chapter` (src/main.rs 310-323): `self.toc[idx]` panics on an
out-of-range index, and the `u16` width computation
`self.cols - (self.pad * 2)` panics on underflow. -/
def getChapter (book : Book) (st : Bk) (idx : Nat) : Option Bk :=
  match st.toc[idx]? with
  | none => none
  | some entry =>
    if 2 * st.pad ≤ st.cols then
      some { st with chapter := book (st.cols - 2 * st.pad) entry.2, chapter_idx := idx }
    else none

/-- `Bk::scroll_down` (src/main.rs 324-331).  `chapter.len() - pos` and
`toc.len() - 1` are `usize` subtractions: underflow panics. -/
def scrollDown (book : Book) (st : Bk) (n : Nat) : Option Bk :=
  if st.chapter.length < st.pos then none
  else if st.rows < st.chapter.length - st.pos then
    some { st with pos := st.pos + n }
  else if st.toc.length = 0 then none
  else if st.chapter_idx < st.toc.length - 1 then
    match getChapter book st (st.chapter_idx + 1) with
    | none => none
    | some s => some { s with pos := 0 }
  else some st

/-- `Bk::scroll_up` (src/main.rs 332-339).  The chapter-length division
panics when `rows = 0`. -/
def scrollUp (book : Book) (st : Bk) (n : Nat) : Option Bk :=
  if 0 < st.pos then
    some { st with pos := st.pos - n }
  else if 0 < st.chapter_idx then
    match getChapter book st (st.chapter_idx - 1) with
    | none => none
    | some s =>
      if s.rows = 0 then none
      else some { s with pos := (s.chapter.length / s.rows) * s.rows }
  else some st

/-- `Bk::really_search` (src/main.rs 340-359).  The forward slice
`&self.chapter[self.pos + 1..]` and the backward slice
`&self.chapter[..self.pos]` panic when the bound exceeds the buffer. -/
def reallySearch (st : Bk) : Direction → Option Bk
  | .forward =>
    if st.pos + 1 ≤ st.chapter.length then
      match position (fun l => containsSub st.search l) (st.chapter.drop (st.pos + 1)) with
      | some i => some { st with pos := st.pos + (i + 1) }
      | none => some st
    else none
  | .backward =>
    if st.pos ≤ st.chapter.length then
      match rposition (fun l => containsSub st.search l) (st.chapter.take st.pos) with
      | some i => some { st with pos := i }
      | none => some st
    else none

/-- `Bk::match_search` (src/main.rs 360-375). -/
def matchSearch (st : Bk) : KeyCode → Option Bk
  | .esc => some { st with search := [], mode := .read }
  | .enter => reallySearch { st with mode := .read } .forward
  | .char c => some { st with search := st.search ++ [c] }
  | _ => some st

/-- `Bk::start_nav` (src/main.rs 472-476); `self.rows - 1` underflows when
`rows = 0`. -/
def startNav (st : Bk) : Option Bk :=
  if st.rows = 0 then none
  else
    some { st with nav_idx := st.chapter_idx,
                   nav_top := st.chapter_idx - (st.rows - 1),
                   mode := .nav }

/-- `match_nav` leaving navigation: `Esc`/`h`/`q` (src/main.rs 378-380). -/
def navExitKey (st : Bk) : Option Bk :=
  some { st with mode := .read }

/-- `match_nav` confirming: `Enter`/`Tab`/`l` load the chapter under the
cursor and reset the scroll position (src/main.rs 381-385). -/
def navConfirmKey (book : Book) (st : Bk) : Option Bk :=
  match getChapter book st st.nav_idx with
  | none => none
  | some s => some { s with pos := 0, mode := .read }

/-- `match_nav` cursor down: `Down`/`j` (src/main.rs 386-393);
`toc.len() - 1` underflows on an empty chapter list. -/
def navDownKey (st : Bk) : Option Bk :=
  if st.toc.length = 0 then none
  else if st.nav_idx < st.toc.length - 1 then
    some { st with nav_idx := st.nav_idx + 1,
                   nav_top := if st.nav_idx + 1 = st.nav_top + st.rows
                              then st.nav_top + 1 else st.nav_top }
  else some st

/-- `match_nav` cursor up: `Up`/`k` (src/main.rs 394-401). -/
def navUpKey (st : Bk) : Option Bk :=
  if 0 < st.nav_idx then
    some { st with nav_top := if st.nav_idx = st.nav_top then st.nav_top - 1
                              else st.nav_top,
                   nav_idx := st.nav_idx - 1 }
  else some st

/-- `match_nav` jump to the first entry: `Home`/`g` (src/main.rs 402-405). -/
def navHomeKey (st : Bk) : Option Bk :=
  some { st with nav_idx := 0, nav_top := 0 }

/-- `match_nav` jump to the last entry: `End`/`G` (src/main.rs 406-409);
`toc.len() - 1` underflows on an empty chapter list. -/
def navEndKey (st : Bk) : Option Bk :=
  if st.toc.length = 0 then none
  else some { st with nav_idx := st.toc.length - 1,
                      nav_top := st.toc.length - st.rows }

/-- The character arms of `match_nav`, dispatched by successive comparison
(the pattern literals are pairwise distinct, so this is the Rust `match`
arm for arm). -/
def navCharKey (book : Book) (st : Bk) (c : Char) : Option Bk :=
  if c = 'h' ∨ c = 'q' then navExitKey st
  else if c = 'l' then navConfirmKey book st
  else if c = 'j' then navDownKey st
  else if c = 'k' then navUpKey st
  else if c = 'g' then navHomeKey st
  else if c = 'G' then navEndKey st
  else some st

/-- `Bk::match_nav` (src/main.rs 376-412). -/
def matchNav (book : Book) (st : Bk) : KeyCode → Option Bk
  | .esc => navExitKey st
  | .enter | .tab => navConfirmKey book st
  | .down => navDownKey st
  | .up => navUpKey st
  | .home => navHomeKey st
  | .endk => navEndKey st
  | .char c => navCharKey book st c
  | _ => some st

/-- Pair a successful state change with the `false` (do not quit) flag. -/
def withFalse (o : Option Bk) : Option (Bk × Bool) :=
  match o with
  | none => none
  | some s => some (s, false)

/-- `match_read` on `End`/`G`: jump to the final page boundary
(src/main.rs 428-431); division panics when `rows = 0`. -/
def readEndKey (st : Bk) : Option (Bk × Bool) :=
  if st.rows = 0 then none
  else some ({ st with pos := (st.chapter.length / st.rows) * st.rows }, false)

/-- The character arms of `match_read`, dispatched by successive
comparison (the pattern literals are pairwise distinct, so this is the
Rust `match` arm for arm). -/
def readCharKey (book : Book) (st : Bk) (c : Char) : Option (Bk × Bool) :=
  if c = 'q' then some (st, true)
  else if c = '?' then some ({ st with mode := .help }, false)
  else if c = '/' then some ({ st with search := [], mode := .search }, false)
  else if c = 'N' then withFalse (reallySearch st .backward)
  else if c = 'n' then withFalse (reallySearch st .forward)
  else if c = 'G' then readEndKey st
  else if c = 'g' then some ({ st with pos := 0 }, false)
  else if c = 'd' then withFalse (scrollDown book st (st.rows / 2))
  else if c = 'u' then withFalse (scrollUp book st (st.rows / 2))
  else if c = 'k' then withFalse (scrollUp book st 1)
  else if c = 'b' ∨ c = 'h' then withFalse (scrollUp book st st.rows)
  else if c = 'j' then withFalse (scrollDown book st 1)
  else if c = 'f' ∨ c = 'l' ∨ c = ' ' then withFalse (scrollDown book st st.rows)
  else some (st, false)

/-- `Bk::match_read` (src/main.rs 413-460): the returned flag is `true`
exactly on the quit keys. -/
def matchRead (book : Book) (st : Bk) : KeyCode → Option (Bk × Bool)
  | .esc => some (st, true)
  | .tab => withFalse (startNav st)
  | .f n => if n = 1 then some ({ st with mode := .help }, false) else some (st, false)
  | .endk => readEndKey st
  | .home => some ({ st with pos := 0 }, false)
  | .up => withFalse (scrollUp book st 1)
  | .left | .pageUp => withFalse (scrollUp book st st.rows)
  | .down => withFalse (scrollDown book st 1)
  | .right | .pageDown => withFalse (scrollDown book st st.rows)
  | .char c => readCharKey book st c
  | _ => some (st, false)

/-- One iteration of the event loop (src/main.rs 280-298): key dispatch by
mode (any key in Help returns to Read; the quit flag leaves the state
unchanged) and resize, which stores the new geometry and reloads the
current chapter (scroll position untouched). -/
def step (book : Book) (st : Bk) : Event → Option Bk
  | .key k =>
    match st.mode with
    | .read =>
      match matchRead book st k with
      | none => none
      | some (s, _) => some s
    | .help => some { st with mode := .read }
    | .nav => matchNav book st k
    | .search => matchSearch st k
  | .resize c r => getChapter book { st with cols := c, rows := r } st.chapter_idx

/-- `Bk::new` (src/main.rs 244-262): the fields are seeded — in particular
`pos` from the **persisted** scroll position, unvalidated — and then the
persisted chapter index is loaded. -/
def mkBk (book : Book) (toc : List (String × String)) (cols rows : Nat)
    (savedChapter savedPos : Nat) (pad : Nat) : Option Bk :=
  getChapter book
    { mode := .read, cols := cols, chapter := [], chapter_idx := 0,
      nav_idx := 0, nav_top := 0, pos := savedPos, rows := rows,
      toc := toc, pad := pad, search := [] }
    savedChapter

/-- Geometry assumption on events: the terminal reports at least one row
on resize. -/
def GoodEv : Event → Prop
  | .key _ => True
  | .resize _ r => 1 ≤ r

/-- Reachable reader states: an initial state built by `Bk::new` from a
persisted position (on a terminal with at least one row), closed under
event-loop steps. -/
inductive Reach (book : Book) : Bk → Prop where
  | init (toc : List (String × String)) (cols rows savedChapter savedPos pad : Nat)
      (st : Bk) (hrows : 1 ≤ rows)
      (hmk : mkBk book toc cols rows savedChapter savedPos pad = some st) :
      Reach book st
  | next (st : Bk) (e : Event) (st2 : Bk) (hr : Reach book st) (he : GoodEv e)
      (hs : step book st e = some st2) : Reach book st2

/-- Iterated application of a fallible step. -/
def iterOpt (f : Bk → Option Bk) : Nat → Bk → Option Bk
  | 0, st => some st
  | n + 1, st =>
    match f st with
    | none => none
    | some s => iterOpt f n s

/-- The current chapter buffer is the one `get_chapter` would load for the
current chapter index and geometry. -/
def Loaded (book : Book) (st : Bk) : Prop :=
  ∃ entry, st.toc[st.chapter_idx]? = some entry ∧
    2 * st.pad ≤ st.cols ∧
    st.chapter = book (st.cols - 2 * st.pad) entry.2

/-! ## Statements of spec claims that are refuted, and concrete instances -/

/-- Spec claim (§4.3): the accumulator is seeded, so appending a text
fragment never hits an empty accumulator — i.e. rendering any chapter body
never reaches the `acc.last_mut().unwrap()` panic. -/
def C4Stated : Prop :=
  ∀ body : XNode, renderChapter body ≠ none

/-- Spec claim (§3, ReaderState invariant): every reachable state keeps
`pos` a valid chapter-line index (or 0 when the buffer is empty),
`chapter_idx` in range, and the nav cursor window bounds. -/
def C3Stated : Prop :=
  ∀ (book : Book) (st : Bk), Reach book st →
    (st.pos < st.chapter.length ∨ (st.chapter.length = 0 ∧ st.pos = 0)) ∧
    st.chapter_idx < st.toc.length ∧
    st.nav_idx < st.toc.length ∧
    st.nav_top < st.toc.length ∧
    st.nav_top ≤ st.nav_idx ∧
    st.nav_idx + 1 ≤ st.nav_top + st.rows

/-- Spec claim (§8): from the first chapter at position 0, repeated
page-down scrolling reaches the last chapter at
`(line_count / visible_rows) * visible_rows`, where every further
scroll-down is a no-op. -/
def C7Stated : Prop :=
  ∀ (book : Book) (st : Bk), Loaded book st → 1 ≤ st.rows →
    st.chapter_idx = 0 → st.pos = 0 →
    ∃ k st2, iterOpt (fun s => scrollDown book s s.rows) k st = some st2 ∧
      st2.chapter_idx + 1 = st.toc.length ∧
      st2.pos = (st2.chapter.length / st2.rows) * st2.rows ∧
      ∀ n, scrollDown book st2 n = some st2

/-- Spec claim (§4.5/§8 search semantics) over every loaded chapter and
scroll position — per the spec's ReaderState invariant (§3) a scroll
position is a valid line index, or 0 when the wrapped buffer is empty: a
successful forward search jumps to the first matching line strictly after
`p`, a successful backward search to the nearest matching line strictly
before `p`, and in both directions an absent query leaves the position
unchanged. -/
def C6Stated : Prop :=
  ∀ st : Bk,
    st.pos < st.chapter.length ∨ (st.chapter.length = 0 ∧ st.pos = 0) →
    (∃ st2, reallySearch st .forward = some st2 ∧
      ((st.pos < st2.pos ∧
          (∃ l, st.chapter[st2.pos]? = some l ∧ containsSub st.search l = true) ∧
          ∀ m, st.pos < m → m < st2.pos →
            ∀ l, st.chapter[m]? = some l → containsSub st.search l = false) ∨
        (st2.pos = st.pos ∧
          ∀ m, st.pos < m →
            ∀ l, st.chapter[m]? = some l → containsSub st.search l = false))) ∧
    (∃ st2, reallySearch st .backward = some st2 ∧
      ((st2.pos < st.pos ∧
          (∃ l, st.chapter[st2.pos]? = some l ∧ containsSub st.search l = true) ∧
          ∀ m, st2.pos < m → m < st.pos →
            ∀ l, st.chapter[m]? = some l → containsSub st.search l = false) ∨
        (st2.pos = st.pos ∧
          ∀ m, m < st.pos →
            ∀ l, st.chapter[m]? = some l → containsSub st.search l = false)))

/-- The part of the spec's ReaderState invariant that the code actually
maintains: a positive row count, an in-range chapter index, an in-range
nav cursor, and the nav window top at or before the cursor. -/
def NavInv (st : Bk) : Prop :=
  1 ≤ st.rows ∧ st.chapter_idx < st.toc.length ∧
  st.nav_top ≤ st.nav_idx ∧ st.nav_idx < st.toc.length

/-- A book whose every chapter renders to one wrapped line. -/
def book0 : Book := fun _ _ => [['a']]

/-- A one-chapter table of contents. -/
def toc0 : List (String × String) := [("0", "c1")]

/-- The state `Bk::new` builds from `book0`/`toc0` on an 80×24 terminal
with a persisted position of chapter 0, scroll line 5. -/
def st0 : Bk :=
  { mode := .read, cols := 80, chapter := [['a']], chapter_idx := 0,
    nav_idx := 0, nav_top := 0, pos := 5, rows := 24, toc := toc0,
    pad := 3, search := [] }

/-- A book whose every chapter renders to an empty wrapped-line buffer —
what `get_chapter` produces for a chapter body with no line-opening
elements and no non-whitespace text. -/
def bookE : Book := fun _ _ => []

/-- The state `Bk::new` builds from `bookE`/`toc0` on an 80×24 terminal
with no saved position: an empty loaded chapter at scroll position 0. -/
def stE : Bk :=
  { mode := .read, cols := 80, chapter := [], chapter_idx := 0,
    nav_idx := 0, nav_top := 0, pos := 0, rows := 24, toc := toc0,
    pad := 3, search := [] }

/-- A book whose every chapter has exactly ten wrapped lines. -/
def bookA : Book := fun _ _ => List.replicate 10 ['x']

/-- A reader on a single ten-line chapter with five visible rows, at the
top of the chapter. -/
def stA : Bk :=
  { mode := .read, cols := 10, chapter := List.replicate 10 ['x'],
    chapter_idx := 0, nav_idx := 0, nav_top := 0, pos := 0, rows := 5,
    toc := [("t", "p")], pad := 2, search := [] }

/-- `stA` after one page-down. -/
def stA5 : Bk :=
  { stA with pos := 5 }

/-- A two-chapter book: chapter path "a" has three wrapped lines, every
other chapter has seven. -/
def bookB : Book := fun _ p =>
  if p = "a" then List.replicate 3 ['y'] else List.replicate 7 ['z']

/-- A reader on `bookB` at the start of the first chapter, two visible
rows. -/
def stB : Bk :=
  { mode := .read, cols := 10, chapter := List.replicate 3 ['y'],
    chapter_idx := 0, nav_idx := 0, nav_top := 0, pos := 0, rows := 2,
    toc := [("x", "a"), ("y", "b")], pad := 3, search := [] }

/-- A reader whose chapter lines are "ab", "c", "ab", searching for "ab"
from line 0. -/
def stC : Bk :=
  { mode := .read, cols := 20, chapter := [['a','b'], ['c'], ['a','b']],
    chapter_idx := 0, nav_idx := 0, nav_top := 0, pos := 0, rows := 4,
    toc := [("t", "p")], pad := 2, search := ['a', 'b'] }

/-- A reader in search mode with an empty search buffer and two lines
after the current position. -/
def stD : Bk :=
  { mode := .search, cols := 20, chapter := [['a'], ['b'], ['c']],
    chapter_idx := 0, nav_idx := 0, nav_top := 0, pos := 0, rows := 4,
    toc := [("t", "p")], pad := 2, search := [] }

/-! ## Theorems: line wrapper -/

/-- While the running line counter stays below `width` for the whole
remaining input, the scan never breaks, so the single final line is the
entire text. -/
theorem wrapAux_no_break (text : List Char) (width : Nat) :
    ∀ (rest : List Char) (i space line word : Nat) (acc : List (List Char)),
      line + rest.length ≤ width →
      wrapAux text width rest i 0 space line word acc = some (acc ++ [text]) := by
  intro rest
  induction rest with
  | nil =>
    intro i space line word acc _
    simp [wrapAux]
  | cons c rest ih =>
    intro i space line word acc h
    have hne : line ≠ width := by
      simp only [List.length_cons] at h
      omega
    simp only [wrapAux, if_neg hne]
    apply ih
    simp only [List.length_cons] at h
    omega

/-- Sanity scenario from the spec (§8): wrapping
`"the quick brown fox"` at width 10. -/
theorem wrap_scenario_quick_fox :
    wrap "the quick brown fox".toList 10 =
      some ["the quick".toList, "brown fox".toList] := by
  decide

/-- C8: for every input whose length is at most the width, the wrapper
returns exactly one output line equal to the input (in particular the
empty input yields one empty line). -/
theorem C8_theorem (text : List Char) (width : Nat) (h : text.length ≤ width) :
    wrap text width = some [text] := by
  unfold wrap
  have h0 : (0 : Nat) + text.length ≤ width := by omega
  simpa using wrapAux_no_break text width text 0 0 0 0 [] h0

/-- Witness for C8 at the concrete input `"abc"`, width 5. -/
theorem C8_witness :
    ("abc".toList.length ≤ 5) ∧ wrap "abc".toList 5 = some ["abc".toList] :=
  ⟨by decide, C8_theorem "abc".toList 5 (by decide)⟩

/-- C1 (refuting evaluation): wrapping `"supercalifragilistic test"` at
width 5 silently drops the leading `'s'` — the output starts with an empty
line followed by `"upercalifragilistic test"`, and the space-joined output
has one fewer `'s'` than the input, so characters are lost. -/
theorem C1_eval :
    wrap "supercalifragilistic test".toList 5 =
      some [[], "upercalifragilistic test".toList] ∧
    ("supercalifragilistic test".toList.count 's' = 3 ∧
      (joinSpaces [[], "upercalifragilistic test".toList]).count 's' = 2) := by
  constructor
  · decide
  · constructor
    · decide
    · decide

/-- C2 (refuting evaluation): on `"supercalifragilistic test"` at width 5
the first output line is empty — not the unbroken word, whose first
character is dropped — and when the over-long word follows a space, as in
`"ab supercalifragilistic"`, the break slice `&text[start..space]` has
`start > space` and the wrapper panics. -/
theorem C2_eval :
    wrap "supercalifragilistic test".toList 5 =
      some [[], "upercalifragilistic test".toList] ∧
    wrap "ab supercalifragilistic".toList 5 = none := by
  constructor
  · decide
  · decide

/-! ## Theorems: search -/

/-- The empty pattern occurs in every line (Rust `contains("")` is true). -/
theorem containsSub_nil (l : List Char) : containsSub [] l = true := by
  cases l <;> simp [containsSub, startsWithList]

/-- Characterization of `Iterator::position`: a returned index holds the
first satisfying element. -/
theorem position_eq_some {α : Type} {f : α → Bool} :
    ∀ {l : List α} {i : Nat}, position f l = some i →
      (∃ x, l[i]? = some x ∧ f x = true) ∧
      ∀ j, j < i → ∀ y, l[j]? = some y → f y = false := by
  intro l
  induction l with
  | nil => intro i h; simp [position] at h
  | cons x xs ih =>
    intro i h
    by_cases hx : f x
    · simp [position, hx] at h
      subst h
      exact ⟨⟨x, by simp, hx⟩, by omega⟩
    · simp only [position, if_neg hx] at h
      cases hp : position f xs with
      | none => rw [hp] at h; cases h
      | some i2 =>
        rw [hp] at h
        cases h
        obtain ⟨⟨y, hy, hfy⟩, hmin⟩ := ih hp
        refine ⟨⟨y, by simpa using hy, hfy⟩, ?_⟩
        intro j hj z hz
        cases j with
        | zero =>
          simp at hz
          subst hz
          simpa using hx
        | succ j2 =>
          simp at hz
          exact hmin j2 (by omega) z hz

/-- `Iterator::position` returns `none` exactly when no element
satisfies the predicate. -/
theorem position_eq_none {α : Type} {f : α → Bool} :
    ∀ {l : List α}, position f l = none →
      ∀ (j : Nat) (y : α), l[j]? = some y → f y = false := by
  intro l
  induction l with
  | nil => intro _ j y hy; simp at hy
  | cons x xs ih =>
    intro h j y hy
    by_cases hx : f x
    · simp [position, hx] at h
    · simp only [position, if_neg hx] at h
      cases hp : position f xs with
      | none =>
        cases j with
        | zero => simp at hy; subst hy; simpa using hx
        | succ j2 => simp at hy; exact ih hp j2 y hy
      | some i2 => rw [hp] at h; cases h

/-- `Iterator::rposition` returns `none` exactly when no element
satisfies the predicate. -/
theorem rposition_eq_none_aux {α : Type} {f : α → Bool} :
    ∀ {l : List α}, rposition f l = none →
      ∀ (j : Nat) (y : α), l[j]? = some y → f y = false := by
  intro l
  induction l with
  | nil => intro _ j y hy; simp at hy
  | cons x xs ih =>
    intro h j y hy
    simp only [rposition] at h
    cases hp : rposition f xs with
    | some i2 => rw [hp] at h; cases h
    | none =>
      rw [hp] at h
      by_cases hx : f x
      · rw [if_pos hx] at h; cases h
      · cases j with
        | zero => simp at hy; subst hy; simpa using hx
        | succ j2 => simp at hy; exact ih hp j2 y hy

/-- Characterization of `Iterator::rposition`: a returned index holds the
last satisfying element. -/
theorem rposition_eq_some {α : Type} {f : α → Bool} :
    ∀ {l : List α} {i : Nat}, rposition f l = some i →
      (∃ x, l[i]? = some x ∧ f x = true) ∧
      ∀ j, i < j → ∀ y, l[j]? = some y → f y = false := by
  intro l
  induction l with
  | nil => intro i h; simp [rposition] at h
  | cons x xs ih =>
    intro i h
    simp only [rposition] at h
    cases hp : rposition f xs with
    | some i2 =>
      rw [hp] at h
      cases h
      obtain ⟨⟨y, hy, hfy⟩, hmax⟩ := ih hp
      refine ⟨⟨y, by simpa using hy, hfy⟩, ?_⟩
      intro j hj z hz
      cases j with
      | zero => omega
      | succ j2 =>
        simp at hz
        exact hmax j2 (by omega) z hz
    | none =>
      rw [hp] at h
      by_cases hx : f x
      · rw [if_pos hx] at h
        cases h
        refine ⟨⟨x, by simp, hx⟩, ?_⟩
        intro j hj z hz
        cases j with
        | zero => omega
        | succ j2 =>
          simp at hz
          exact rposition_eq_none_aux hp j2 z hz
      · rw [if_neg hx] at h; cases h


/-- C6 counterexample: the claim fails on the reachable empty loaded
chapter.  `Bk::new` on a chapter that renders to no wrapped lines yields
`stE` (empty buffer, scroll position 0 — the spec's scroll position for
an empty buffer), and there a forward search evaluates
`&self.chapter[self.pos + 1..]` on an empty buffer and panics
(src/main.rs 343) instead of leaving the position unchanged. -/
theorem C6_counterexample :
    mkBk bookE toc0 80 24 0 0 3 = some stE ∧ ¬ C6Stated := by
  refine ⟨rfl, fun h => ?_⟩
  obtain ⟨⟨st2, hF, -⟩, -⟩ := h stE (Or.inr ⟨rfl, rfl⟩)
  rw [show reallySearch stE Direction.forward = none from rfl] at hF
  cases hF

/-- C6 as amended: restricted to scroll positions `p` strictly below the
line count — so to nonempty chapters; on an empty chapter (scroll
position 0) the forward slice `&chapter[p + 1..]` panics instead of
leaving the position unchanged.  For such `p`, a successful forward
search jumps to the first line strictly after `p` containing the query, a
successful backward search to the nearest such line strictly before `p`,
and in both directions an absent query leaves the position unchanged. -/
theorem C6_theorem (st : Bk) (h : st.pos < st.chapter.length) :
    (∃ st2, reallySearch st .forward = some st2 ∧
      ((st.pos < st2.pos ∧
          (∃ l, st.chapter[st2.pos]? = some l ∧ containsSub st.search l = true) ∧
          ∀ m, st.pos < m → m < st2.pos →
            ∀ l, st.chapter[m]? = some l → containsSub st.search l = false) ∨
        (st2.pos = st.pos ∧
          ∀ m, st.pos < m →
            ∀ l, st.chapter[m]? = some l → containsSub st.search l = false))) ∧
    (∃ st2, reallySearch st .backward = some st2 ∧
      ((st2.pos < st.pos ∧
          (∃ l, st.chapter[st2.pos]? = some l ∧ containsSub st.search l = true) ∧
          ∀ m, st2.pos < m → m < st.pos →
            ∀ l, st.chapter[m]? = some l → containsSub st.search l = false) ∨
        (st2.pos = st.pos ∧
          ∀ m, m < st.pos →
            ∀ l, st.chapter[m]? = some l → containsSub st.search l = false))) := by
  constructor
  · -- forward
    have hle : st.pos + 1 ≤ st.chapter.length := by omega
    simp only [reallySearch, if_pos hle]
    cases hp : position (fun l => containsSub st.search l)
        (st.chapter.drop (st.pos + 1)) with
    | some i =>
      refine ⟨_, rfl, Or.inl ?_⟩
      obtain ⟨⟨x, hx, hfx⟩, hmin⟩ := position_eq_some hp
      rw [List.getElem?_drop] at hx
      refine ⟨by simp, ⟨x, ?_, hfx⟩, ?_⟩
      · simpa [show st.pos + (i + 1) = st.pos + 1 + i by omega] using hx
      · intro m hm1 hm2 l hl
        simp at hm2
        have hj := hmin (m - (st.pos + 1)) (by omega) l
        rw [List.getElem?_drop,
          show st.pos + 1 + (m - (st.pos + 1)) = m by omega] at hj
        exact hj hl
    | none =>
      refine ⟨_, rfl, Or.inr ⟨rfl, ?_⟩⟩
      intro m hm l hl
      have hj := position_eq_none hp (m - (st.pos + 1)) l
      rw [List.getElem?_drop,
        show st.pos + 1 + (m - (st.pos + 1)) = m by omega] at hj
      exact hj hl
  · -- backward
    have hle : st.pos ≤ st.chapter.length := by omega
    simp only [reallySearch, if_pos hle]
    cases hp : rposition (fun l => containsSub st.search l)
        (st.chapter.take st.pos) with
    | some i =>
      refine ⟨_, rfl, Or.inl ?_⟩
      obtain ⟨⟨x, hx, hfx⟩, hmax⟩ := rposition_eq_some hp
      have hilt : i < st.pos := by
        have := (List.getElem?_eq_some_iff.1 hx).1
        simp at this
        omega
      rw [List.getElem?_take_of_lt hilt] at hx
      refine ⟨hilt, ⟨x, hx, hfx⟩, ?_⟩
      intro m hm1 hm2 l hl
      have hj := hmax m hm1 l
      rw [List.getElem?_take_of_lt hm2] at hj
      exact hj hl
    | none =>
      refine ⟨_, rfl, Or.inr ⟨rfl, ?_⟩⟩
      intro m hm l hl
      have hj := rposition_eq_none_aux hp m l
      rw [List.getElem?_take_of_lt hm] at hj
      exact hj hl

/-- Witness for C6 on the concrete reader `stC` (lines "ab", "c", "ab",
query "ab", position 0). -/
theorem C6_witness :
    (stC.pos < stC.chapter.length) ∧
    ((∃ st2, reallySearch stC .forward = some st2 ∧
      ((stC.pos < st2.pos ∧
          (∃ l, stC.chapter[st2.pos]? = some l ∧ containsSub stC.search l = true) ∧
          ∀ m, stC.pos < m → m < st2.pos →
            ∀ l, stC.chapter[m]? = some l → containsSub stC.search l = false) ∨
        (st2.pos = stC.pos ∧
          ∀ m, stC.pos < m →
            ∀ l, stC.chapter[m]? = some l → containsSub stC.search l = false))) ∧
    (∃ st2, reallySearch stC .backward = some st2 ∧
      ((st2.pos < stC.pos ∧
          (∃ l, stC.chapter[st2.pos]? = some l ∧ containsSub stC.search l = true) ∧
          ∀ m, st2.pos < m → m < stC.pos →
            ∀ l, stC.chapter[m]? = some l → containsSub stC.search l = false) ∨
        (st2.pos = stC.pos ∧
          ∀ m, m < stC.pos →
            ∀ l, stC.chapter[m]? = some l → containsSub stC.search l = false)))) :=
  ⟨by decide, C6_theorem stC (by decide)⟩

/-- C10: confirming a search with an empty buffer advances the position by
exactly one line whenever a line exists after the current one — the empty
query matches the first line scanned. -/
theorem C10_theorem (st : Bk) (h1 : st.search = [])
    (h2 : st.pos + 1 < st.chapter.length) :
    matchSearch st .enter = some { st with mode := Mode.read, pos := st.pos + 1 } := by
  have hle : st.pos + 1 ≤ st.chapter.length := by omega
  obtain ⟨l0, tl, hd⟩ : ∃ l0 tl, st.chapter.drop (st.pos + 1) = l0 :: tl := by
    cases hC : st.chapter.drop (st.pos + 1) with
    | nil =>
      have := congrArg List.length hC
      simp at this
      omega
    | cons a b => exact ⟨a, b, rfl⟩
  simp only [matchSearch, reallySearch]
  rw [if_pos (by simpa using hle)]
  simp only [hd, h1, position, containsSub_nil, if_pos rfl]
  rfl

/-- Witness for C10 on the concrete reader `stD` (empty search buffer,
position 0, three lines). -/
theorem C10_witness :
    matchSearch stD KeyCode.enter =
      some { stD with mode := Mode.read, pos := stD.pos + 1 } :=
  C10_theorem stD rfl (by decide)

/-! ## Theorems: chapter-list and spine resolution -/

/-- A successful `remove` returns exactly what `get` would have. -/
theorem mapRemove_alookup {k v : String} :
    ∀ {m m2 : List (String × String)}, mapRemove k m = some (v, m2) →
      alookup k m = some v := by
  intro m
  induction m with
  | nil => intro m2 h; simp [mapRemove] at h
  | cons kv rest ih =>
    intro m2 h
    obtain ⟨k2, v2⟩ := kv
    by_cases hk : k2 = k
    · simp [mapRemove, hk] at h
      simp [alookup, hk, h.1]
    · simp only [mapRemove, if_neg hk] at h
      cases hr : mapRemove k rest with
      | none => rw [hr] at h; cases h
      | some pr =>
        rw [hr] at h
        obtain ⟨v3, rest2⟩ := pr
        simp at h
        rw [h.1] at hr
        simpa [alookup, if_neg hk] using ih hr

/-- A failing `remove` means the key is absent. -/
theorem mapRemove_none_alookup {k : String} :
    ∀ {m : List (String × String)}, mapRemove k m = none → alookup k m = none := by
  intro m
  induction m with
  | nil => intro _; simp [alookup]
  | cons kv rest ih =>
    intro h
    obtain ⟨k2, v2⟩ := kv
    by_cases hk : k2 = k
    · simp [mapRemove, hk] at h
    · simp only [mapRemove, if_neg hk] at h
      cases hr : mapRemove k rest with
      | none => simp [alookup, if_neg hk, ih hr]
      | some pr => rw [hr] at h; obtain ⟨a, b⟩ := pr; simp at h

/-- Removing one key leaves lookups of any other key unchanged. -/
theorem alookup_mapRemove_ne {k q v : String} (hne : q ≠ k) :
    ∀ {m m2 : List (String × String)}, mapRemove k m = some (v, m2) →
      alookup q m2 = alookup q m := by
  intro m
  induction m with
  | nil => intro m2 h; simp [mapRemove] at h
  | cons kv rest ih =>
    intro m2 h
    obtain ⟨k2, v2⟩ := kv
    by_cases hk : k2 = k
    · simp [mapRemove, hk] at h
      have hq : ¬ k2 = q := by rw [hk]; exact fun hkq => hne hkq.symm
      simp [alookup, hq, h.2]
    · simp only [mapRemove, if_neg hk] at h
      cases hr : mapRemove k rest with
      | none => rw [hr] at h; cases h
      | some pr =>
        rw [hr] at h
        obtain ⟨v3, rest2⟩ := pr
        simp at h
        rw [h.1] at hr
        rw [← h.2]
        by_cases hq : k2 = q
        · simp [alookup, hq]
        · simp [alookup, hq, ih hr]

/-- A key absent from the key list is not found. -/
theorem alookup_eq_none_of_not_mem {k : String} :
    ∀ {m : List (String × String)}, k ∉ m.map Prod.fst → alookup k m = none := by
  intro m
  induction m with
  | nil => intro _; simp [alookup]
  | cons kv rest ih =>
    intro h
    obtain ⟨k2, v2⟩ := kv
    simp only [List.map_cons, List.mem_cons, not_or] at h
    have hne : ¬ k2 = k := fun hk => h.1 hk.symm
    simp [alookup, hne, ih h.2]

/-- With pairwise distinct keys, removing a key makes its lookup fail. -/
theorem mapRemove_self_none {k v : String} :
    ∀ {m m2 : List (String × String)}, (m.map Prod.fst).Nodup →
      mapRemove k m = some (v, m2) → alookup k m2 = none := by
  intro m
  induction m with
  | nil => intro m2 _ h; simp [mapRemove] at h
  | cons kv rest ih =>
    intro m2 hnd h
    obtain ⟨k2, v2⟩ := kv
    simp only [List.map_cons, List.nodup_cons] at hnd
    by_cases hk : k2 = k
    · simp [mapRemove, hk] at h
      rw [← h.2]
      apply alookup_eq_none_of_not_mem
      rw [← hk]
      exact hnd.1
    · simp only [mapRemove, if_neg hk] at h
      cases hr : mapRemove k rest with
      | none => rw [hr] at h; cases h
      | some pr =>
        rw [hr] at h
        obtain ⟨v3, rest2⟩ := pr
        simp at h
        rw [h.1] at hr
        rw [← h.2]
        simp [alookup, hk, ih hnd.2 hr]

/-- Removal never makes an absent key appear. -/
theorem mapRemove_none_pres {k j v : String} :
    ∀ {m m2 : List (String × String)}, alookup k m = none →
      mapRemove j m = some (v, m2) → alookup k m2 = none := by
  intro m
  induction m with
  | nil => intro m2 _ h; simp [mapRemove] at h
  | cons kv rest ih =>
    intro m2 hab h
    obtain ⟨k2, v2⟩ := kv
    simp only [alookup] at hab
    by_cases hq : k2 = k
    · simp [hq] at hab
    · rw [if_neg hq] at hab
      by_cases hk : k2 = j
      · simp [mapRemove, hk] at h
        rw [← h.2]
        exact hab
      · simp only [mapRemove, if_neg hk] at h
        cases hr : mapRemove j rest with
        | none => rw [hr] at h; cases h
        | some pr =>
          rw [hr] at h
          obtain ⟨v3, rest2⟩ := pr
          simp at h
          rw [h.1] at hr
          rw [← h.2]
          simp [alookup, hq, ih hab hr]

/-- The keys remaining after a removal all occurred before it. -/
theorem mapRemove_keys_sub {j v : String} :
    ∀ {m m2 : List (String × String)}, mapRemove j m = some (v, m2) →
      ∀ x, x ∈ m2.map Prod.fst → x ∈ m.map Prod.fst := by
  intro m
  induction m with
  | nil => intro m2 h; simp [mapRemove] at h
  | cons kv rest ih =>
    intro m2 h x hx
    obtain ⟨k2, v2⟩ := kv
    by_cases hk : k2 = j
    · simp [mapRemove, hk] at h
      rw [← h.2] at hx
      simp only [List.map_cons, List.mem_cons]
      exact Or.inr hx
    · simp only [mapRemove, if_neg hk] at h
      cases hr : mapRemove j rest with
      | none => rw [hr] at h; cases h
      | some pr =>
        rw [hr] at h
        obtain ⟨v3, rest2⟩ := pr
        simp at h
        rw [h.1] at hr
        rw [← h.2] at hx
        simp only [List.map_cons, List.mem_cons] at hx ⊢
        cases hx with
        | inl hx => exact Or.inl hx
        | inr hx => exact Or.inr (ih hr x hx)

/-- Removal preserves distinctness of the keys. -/
theorem mapRemove_keys_nodup {j v : String} :
    ∀ {m m2 : List (String × String)}, (m.map Prod.fst).Nodup →
      mapRemove j m = some (v, m2) → (m2.map Prod.fst).Nodup := by
  intro m
  induction m with
  | nil => intro m2 _ h; simp [mapRemove] at h
  | cons kv rest ih =>
    intro m2 hnd h
    obtain ⟨k2, v2⟩ := kv
    simp only [List.map_cons, List.nodup_cons] at hnd
    by_cases hk : k2 = j
    · simp [mapRemove, hk] at h
      rw [← h.2]
      exact hnd.2
    · simp only [mapRemove, if_neg hk] at h
      cases hr : mapRemove j rest with
      | none => rw [hr] at h; cases h
      | some pr =>
        rw [hr] at h
        obtain ⟨v3, rest2⟩ := pr
        simp at h
        rw [h.1] at hr
        rw [← h.2]
        simp only [List.map_cons, List.nodup_cons]
        exact ⟨fun hx => hnd.1 (mapRemove_keys_sub hr k2 hx), ih hnd.2 hr⟩

/-- Spine resolution never reintroduces an absent key. -/
theorem resolveSpine_none_pres {k : String} :
    ∀ (spine : List String) {m : List (String × String)}
      {hrefs : List String} {m2 : List (String × String)},
      alookup k m = none → resolveSpine m spine = some (hrefs, m2) →
      alookup k m2 = none := by
  intro spine
  induction spine with
  | nil =>
    intro m hrefs m2 hab h
    simp [resolveSpine] at h
    rw [← h.2]
    exact hab
  | cons idref rest ih =>
    intro m hrefs m2 hab h
    simp only [resolveSpine] at h
    split at h
    · cases h
    · rename_i href man2 hr
      split at h
      · cases h
      · rename_i hrefs2 m3 hs
        simp at h
        rw [h.2] at hs
        exact ih (mapRemove_none_pres hab hr) hs

/-- Draining the spine removes an id referenced by the spine for good. -/
theorem resolveSpine_removes_spine_id {k : String} :
    ∀ (spine : List String) {manifest : List (String × String)}
      {hrefs : List String} {m2 : List (String × String)},
      (manifest.map Prod.fst).Nodup → k ∈ spine →
      resolveSpine manifest spine = some (hrefs, m2) →
      alookup k m2 = none := by
  intro spine
  induction spine with
  | nil => intro manifest hrefs m2 _ hmem _; cases hmem
  | cons idref rest ih =>
    intro manifest hrefs m2 hnd hmem h
    simp only [resolveSpine] at h
    split at h
    · cases h
    · rename_i href man2 hr
      split at h
      · cases h
      · rename_i hrefs2 m3 hs
        simp at h
        rw [h.2] at hs
        rcases List.mem_cons.1 hmem with hk | hk
        · subst hk
          exact resolveSpine_none_pres rest (mapRemove_self_none hnd hr) hs
        · exact ih (mapRemove_keys_nodup hnd hr) hk hs

/-- C9: in a legacy-dialect document whose spine references the id "ncx",
spine resolution drains that manifest entry, so the later legacy-TOC
lookup `manifest.get("ncx").unwrap()` fails even though the manifest
originally contained the id. -/
theorem C9_theorem (manifest : List (String × String)) (spine : List String)
    (hrefs : List String) (m2 : List (String × String))
    (hnd : (manifest.map Prod.fst).Nodup)
    (_horig : alookup "ncx" manifest ≠ none)
    (hmem : "ncx" ∈ spine)
    (hres : resolveSpine manifest spine = some (hrefs, m2)) :
    legacyTocLookup m2 = none :=
  resolveSpine_removes_spine_id spine hnd hmem hres

/-- Witness for C9: manifest `{ncx ↦ toc.ncx, c1 ↦ c1.html}`, spine
`[c1, ncx]`. -/
theorem C9_witness :
    legacyTocLookup [] = none :=
  C9_theorem [("ncx", "toc.ncx"), ("c1", "c1.html")] ["c1", "ncx"]
    ["c1.html", "toc.ncx"] [] (by decide) (by decide) (by decide) (by decide)

/-- The chapter list has one entry per spine path. -/
theorem buildChapters_length (rootJoin : String → String) :
    ∀ (paths : List String) (i0 : Nat) (toc : List (String × String)),
      (buildChapters rootJoin paths i0 toc).length = paths.length := by
  intro paths
  induction paths with
  | nil => intro i0 toc; simp [buildChapters]
  | cons p ps ih =>
    intro i0 toc
    simp only [buildChapters]
    cases hr : mapRemove p toc with
    | some pr =>
      obtain ⟨t, toc2⟩ := pr
      simp [ih]
    | none => simp [ih]

/-- Entry-wise description of the chapter list: the i-th entry pairs the
i-th spine path (resolved) with its TOC title or the decimal ordinal. -/
theorem buildChapters_getElem (rootJoin : String → String) :
    ∀ (paths : List String) (i0 : Nat) (toc : List (String × String)),
      paths.Nodup →
      ∀ i : Nat, (buildChapters rootJoin paths i0 toc)[i]? =
        (paths[i]?).map
          (fun p => ((alookup p toc).getD (toString (i0 + i)), rootJoin p)) := by
  intro paths
  induction paths with
  | nil => intro i0 toc _ i; simp [buildChapters]
  | cons p ps ih =>
    intro i0 toc hnd i
    rw [List.nodup_cons] at hnd
    simp only [buildChapters]
    cases hr : mapRemove p toc with
    | some pr =>
      obtain ⟨t, toc2⟩ := pr
      cases i with
      | zero =>
        simp [mapRemove_alookup hr]
      | succ i2 =>
        simp only [List.getElem?_cons_succ]
        rw [ih (i0 + 1) toc2 hnd.2 i2]
        cases hq : ps[i2]? with
        | none => simp
        | some q =>
          have hqp : q ≠ p := fun hqp => hnd.1 (hqp ▸ List.getElem?_mem hq)
          simp only [Option.map_some']
          rw [alookup_mapRemove_ne hqp hr,
            show i0 + 1 + i2 = i0 + (i2 + 1) by omega]
    | none =>
      cases i with
      | zero =>
        simp [mapRemove_none_alookup hr]
      | succ i2 =>
        simp only [List.getElem?_cons_succ]
        rw [ih (i0 + 1) toc hnd.2 i2,
          show i0 + 1 + i2 = i0 + (i2 + 1) by omega]

/-- C5: for distinct spine paths, the chapter list has exactly one entry
per spine item, in spine order; each title is the matched TOC entry, and a
path with no TOC entry gets its zero-based ordinal as a decimal string. -/
theorem C5_theorem (rootJoin : String → String) (paths : List String)
    (toc : List (String × String)) (hnd : paths.Nodup) :
    (buildChapters rootJoin paths 0 toc).length = paths.length ∧
    ∀ i : Nat, (buildChapters rootJoin paths 0 toc)[i]? =
      (paths[i]?).map (fun p => ((alookup p toc).getD (toString i), rootJoin p)) := by
  refine ⟨buildChapters_length rootJoin paths 0 toc, fun i => ?_⟩
  rw [buildChapters_getElem rootJoin paths 0 toc hnd i]
  simp

/-- Witness for C5: the spec scenario (§8) — three spine paths, one TOC
entry — yields `[("Intro", c1), ("1", c2), ("2", c3)]`. -/
theorem C5_witness :
    (["c1.xhtml", "c2.xhtml", "c3.xhtml"] : List String).Nodup ∧
    (buildChapters id ["c1.xhtml", "c2.xhtml", "c3.xhtml"] 0
        [("c1.xhtml", "Intro")]).length = 3 ∧
    ∀ i : Nat, (buildChapters id ["c1.xhtml", "c2.xhtml", "c3.xhtml"] 0
        [("c1.xhtml", "Intro")])[i]? =
      ((["c1.xhtml", "c2.xhtml", "c3.xhtml"] : List String)[i]?).map
        (fun p => ((alookup p [("c1.xhtml", "Intro")]).getD (toString i), id p)) :=
  ⟨by decide, C5_theorem id ["c1.xhtml", "c2.xhtml", "c3.xhtml"]
    [("c1.xhtml", "Intro")] (by decide)⟩

/-! ## Theorems: markup flattening -/

/-- Appending a fragment to the last line keeps the accumulator nonempty. -/
theorem pushLast_ne_nil :
    ∀ (acc : List (List String)) (s : String), acc ≠ [] → pushLast acc s ≠ [] := by
  intro acc s hacc
  cases acc with
  | nil => exact absurd rfl hacc
  | cons l ls =>
    cases ls with
    | nil => simp [pushLast]
    | cons l2 ls2 => simp [pushLast]

mutual

/-- Rendering a node from a nonempty accumulator never panics and leaves
the accumulator nonempty. -/
theorem renderNode_total (n : XNode) :
    ∀ acc : List (List String), acc ≠ [] →
      ∃ a, renderNode acc n = some a ∧ a ≠ [] := by
  cases n with
  | text s =>
    intro acc hacc
    by_cases ht : s.toList.all Char.isWhitespace
    · refine ⟨acc, ?_, hacc⟩
      simp only [renderNode]
      rw [if_pos ht]
    · cases acc with
      | nil => exact absurd rfl hacc
      | cons l ls =>
        refine ⟨pushLast (l :: ls) s, ?_,
          pushLast_ne_nil (l :: ls) s (by simp)⟩
        simp only [renderNode]
        rw [if_neg ht]
  | elem tag cs =>
    intro acc hacc
    simp only [renderNode]
    split
    all_goals first
      | exact ⟨acc ++ [[]], rfl, by simp⟩
      | (obtain ⟨a, ha, hane⟩ :=
          renderNodes_total cs (acc ++ [["\x1b[1m"]]) (by simp)
         exact ⟨a ++ [["\x1b[0m"]], by rw [ha], by simp⟩)
      | (obtain ⟨a, ha, hane⟩ := renderNodes_total cs (acc ++ [[]]) (by simp)
         exact ⟨a ++ [[]], by rw [ha], by simp⟩)
      | (obtain ⟨a, ha, hane⟩ := renderNodes_total cs (acc ++ [["- "]]) (by simp)
         exact ⟨a ++ [[]], by rw [ha], by simp⟩)
      | exact renderNodes_total cs acc hacc

/-- Rendering a child list from a nonempty accumulator never panics and
leaves the accumulator nonempty. -/
theorem renderNodes_total (ns : XNodes) :
    ∀ acc : List (List String), acc ≠ [] →
      ∃ a, renderNodes acc ns = some a ∧ a ≠ [] := by
  cases ns with
  | nil => intro acc hacc; exact ⟨acc, rfl, hacc⟩
  | cons n ns2 =>
    intro acc hacc
    obtain ⟨a, ha, hane⟩ := renderNode_total n acc hacc
    obtain ⟨b, hb, hbne⟩ := renderNodes_total ns2 a hane
    refine ⟨b, ?_, hbne⟩
    simp only [renderNodes]
    rw [ha]
    exact hb

end

/-- C4 counterexample: the accumulator is **not** seeded at traversal
start — `Bk::get_chapter` hands `Epub::render` an empty `Vec` — so a body
whose first non-whitespace text precedes any line-opening element hits
`acc.last_mut().unwrap()` on an empty accumulator and panics. -/
theorem C4_counterexample : ¬ C4Stated := fun h =>
  h (XNode.elem "body" (XNodes.cons (XNode.text "hi") XNodes.nil)) (by decide)

/-- C4 as amended: once the accumulator is nonempty — which is the case as
soon as any heading, paragraph, blockquote, list item or line break has
opened a line — appending a text fragment always finds a current line:
rendering any node from a nonempty accumulator succeeds and keeps it
nonempty. -/
theorem C4_theorem (n : XNode) (acc : List (List String)) (hacc : acc ≠ []) :
    ∃ a, renderNode acc n = some a ∧ a ≠ [] :=
  renderNode_total n acc hacc

/-- Witness for C4 on a concrete paragraph node and one-line accumulator. -/
theorem C4_witness :
    (([["t"]] : List (List String)) ≠ []) ∧
    ∃ a, renderNode [["t"]]
      (XNode.elem "p" (XNodes.cons (XNode.text "hi") XNodes.nil)) = some a ∧ a ≠ [] :=
  ⟨by simp,
    C4_theorem (XNode.elem "p" (XNodes.cons (XNode.text "hi") XNodes.nil))
      [["t"]] (by simp)⟩

/-! ## Theorems: reader state machine -/

/-- What a successful `get_chapter` does: it requires the index in range,
replaces the chapter buffer, sets the chapter index, leaves every other
field unchanged, and leaves the buffer consistent with the book. -/
theorem getChapter_fields {book : Book} {st st2 : Bk} {idx : Nat}
    (h : getChapter book st idx = some st2) :
    idx < st.toc.length ∧ st2.chapter_idx = idx ∧ st2.rows = st.rows ∧
    st2.toc = st.toc ∧ st2.nav_idx = st.nav_idx ∧ st2.nav_top = st.nav_top ∧
    st2.pos = st.pos ∧ st2.cols = st.cols ∧ st2.pad = st.pad ∧
    st2.mode = st.mode ∧ st2.search = st.search ∧ Loaded book st2 := by
  unfold getChapter at h
  split at h
  · cases h
  · rename_i entry hq
    split at h
    · rename_i hpad
      obtain ⟨hlt, -⟩ := List.getElem?_eq_some_iff.1 hq
      cases h
      refine ⟨hlt, rfl, rfl, rfl, rfl, rfl, rfl, rfl, rfl, rfl, rfl, ?_⟩
      exact ⟨entry, hq, hpad, rfl⟩
    · cases h

/-- `NavInv` only looks at five fields. -/
theorem NavInv_of_fields {st st2 : Bk} (hI : NavInv st)
    (h1 : st2.rows = st.rows) (h2 : st2.chapter_idx = st.chapter_idx)
    (h3 : st2.nav_top = st.nav_top) (h4 : st2.nav_idx = st.nav_idx)
    (h5 : st2.toc = st.toc) : NavInv st2 := by
  unfold NavInv at hI ⊢
  rw [h1, h2, h3, h4, h5]
  exact hI

/-- `get_chapter` preserves the navigation invariant. -/
theorem navInv_getChapter {book : Book} {st st2 : Bk} {idx : Nat}
    (h : getChapter book st idx = some st2) (hI : NavInv st) : NavInv st2 := by
  obtain ⟨hlt, h2, h3, h4, h5, h6, -⟩ := getChapter_fields h
  obtain ⟨i1, i2, i3, i4⟩ := hI
  exact ⟨h3 ▸ i1, by rw [h2, h4]; exact hlt, by rw [h5, h6]; exact i3,
    by rw [h5, h4]; exact i4⟩

/-- `scroll_down` preserves the navigation invariant. -/
theorem navInv_scrollDown {book : Book} {st st2 : Bk} {n : Nat}
    (h : scrollDown book st n = some st2) (hI : NavInv st) : NavInv st2 := by
  unfold scrollDown at h
  split at h
  · cases h
  · split at h
    · cases h
      exact NavInv_of_fields hI rfl rfl rfl rfl rfl
    · split at h
      · cases h
      · split at h
        · split at h
          · cases h
          · rename_i s hg
            cases h
            exact NavInv_of_fields (navInv_getChapter hg hI) rfl rfl rfl rfl rfl
        · cases h
          exact hI

/-- `scroll_up` preserves the navigation invariant. -/
theorem navInv_scrollUp {book : Book} {st st2 : Bk} {n : Nat}
    (h : scrollUp book st n = some st2) (hI : NavInv st) : NavInv st2 := by
  unfold scrollUp at h
  split at h
  · cases h
    exact NavInv_of_fields hI rfl rfl rfl rfl rfl
  · split at h
    · split at h
      · cases h
      · rename_i s hg
        split at h
        · cases h
        · cases h
          exact NavInv_of_fields (navInv_getChapter hg hI) rfl rfl rfl rfl rfl
    · cases h
      exact hI

/-- `really_search` preserves the navigation invariant. -/
theorem navInv_reallySearch {st st2 : Bk} {dir : Direction}
    (h : reallySearch st dir = some st2) (hI : NavInv st) : NavInv st2 := by
  cases dir with
  | forward =>
    simp only [reallySearch] at h
    split at h
    · split at h
      · cases h
        exact NavInv_of_fields hI rfl rfl rfl rfl rfl
      · cases h
        exact hI
    · cases h
  | backward =>
    simp only [reallySearch] at h
    split at h
    · split at h
      · cases h
        exact NavInv_of_fields hI rfl rfl rfl rfl rfl
      · cases h
        exact hI
    · cases h

/-- `match_search` preserves the navigation invariant. -/
theorem navInv_matchSearch {st st2 : Bk} {k : KeyCode}
    (h : matchSearch st k = some st2) (hI : NavInv st) : NavInv st2 := by
  cases k <;> simp only [matchSearch] at h
  all_goals first
    | (cases h; exact NavInv_of_fields hI rfl rfl rfl rfl rfl)
    | exact navInv_reallySearch h (NavInv_of_fields hI rfl rfl rfl rfl rfl)

/-- `start_nav` preserves the navigation invariant. -/
theorem navInv_startNav {st st2 : Bk} (h : startNav st = some st2)
    (hI : NavInv st) : NavInv st2 := by
  unfold startNav at h
  split at h
  · cases h
  · cases h
    obtain ⟨i1, i2, i3, i4⟩ := hI
    unfold NavInv
    refine ⟨i1, i2, ?_, i2⟩
    show st.chapter_idx - (st.rows - 1) ≤ st.chapter_idx
    omega

/-- The nav-mode chapter confirmation preserves the invariant. -/
theorem navInv_navConfirmKey {book : Book} {st st2 : Bk}
    (h : navConfirmKey book st = some st2) (hI : NavInv st) : NavInv st2 := by
  unfold navConfirmKey at h
  split at h
  · cases h
  · rename_i s hg
    cases h
    exact NavInv_of_fields (navInv_getChapter hg hI) rfl rfl rfl rfl rfl

/-- The nav-mode cursor-down move preserves the invariant. -/
theorem navInv_navDownKey {st st2 : Bk}
    (h : navDownKey st = some st2) (hI : NavInv st) : NavInv st2 := by
  unfold navDownKey at h
  split at h
  · cases h
  · split at h
    · cases h
      obtain ⟨i1, i2, i3, i4⟩ := hI
      unfold NavInv
      refine ⟨i1, i2, ?_, ?_⟩
      · show (if st.nav_idx + 1 = st.nav_top + st.rows
              then st.nav_top + 1 else st.nav_top) ≤ st.nav_idx + 1
        split <;> omega
      · show st.nav_idx + 1 < st.toc.length
        omega
    · cases h
      exact hI

/-- The nav-mode cursor-up move preserves the invariant. -/
theorem navInv_navUpKey {st st2 : Bk}
    (h : navUpKey st = some st2) (hI : NavInv st) : NavInv st2 := by
  unfold navUpKey at h
  split at h
  · cases h
    obtain ⟨i1, i2, i3, i4⟩ := hI
    unfold NavInv
    refine ⟨i1, i2, ?_, ?_⟩
    · show (if st.nav_idx = st.nav_top then st.nav_top - 1
            else st.nav_top) ≤ st.nav_idx - 1
      split <;> omega
    · show st.nav_idx - 1 < st.toc.length
      omega
  · cases h
    exact hI

/-- The nav-mode jump to the first entry preserves the invariant. -/
theorem navInv_navHomeKey {st st2 : Bk}
    (h : navHomeKey st = some st2) (hI : NavInv st) : NavInv st2 := by
  unfold navHomeKey at h
  cases h
  obtain ⟨i1, i2, i3, i4⟩ := hI
  unfold NavInv
  refine ⟨i1, i2, Nat.le.refl, ?_⟩
  show 0 < st.toc.length
  omega

/-- The nav-mode jump to the last entry preserves the invariant. -/
theorem navInv_navEndKey {st st2 : Bk}
    (h : navEndKey st = some st2) (hI : NavInv st) : NavInv st2 := by
  unfold navEndKey at h
  split at h
  · cases h
  · cases h
    obtain ⟨i1, i2, i3, i4⟩ := hI
    unfold NavInv
    refine ⟨i1, i2, ?_, ?_⟩
    · show st.toc.length - st.rows ≤ st.toc.length - 1
      omega
    · show st.toc.length - 1 < st.toc.length
      omega

/-- `match_nav` returning to Read mode preserves the invariant. -/
theorem navInv_navExitKey {st st2 : Bk}
    (h : navExitKey st = some st2) (hI : NavInv st) : NavInv st2 := by
  unfold navExitKey at h
  cases h
  exact NavInv_of_fields hI rfl rfl rfl rfl rfl

/-- The character dispatch of `match_nav` preserves the invariant. -/
theorem navInv_navCharKey {book : Book} {st st2 : Bk} {c : Char}
    (h : navCharKey book st c = some st2) (hI : NavInv st) : NavInv st2 := by
  unfold navCharKey at h
  by_cases hc0 : c = 'h' ∨ c = 'q'
  · rw [if_pos hc0] at h
    exact navInv_navExitKey h hI
  · rw [if_neg hc0] at h
    by_cases hc1 : c = 'l'
    · rw [if_pos hc1] at h
      exact navInv_navConfirmKey h hI
    · rw [if_neg hc1] at h
      by_cases hc2 : c = 'j'
      · rw [if_pos hc2] at h
        exact navInv_navDownKey h hI
      · rw [if_neg hc2] at h
        by_cases hc3 : c = 'k'
        · rw [if_pos hc3] at h
          exact navInv_navUpKey h hI
        · rw [if_neg hc3] at h
          by_cases hc4 : c = 'g'
          · rw [if_pos hc4] at h
            exact navInv_navHomeKey h hI
          · rw [if_neg hc4] at h
            by_cases hc5 : c = 'G'
            · rw [if_pos hc5] at h
              exact navInv_navEndKey h hI
            · rw [if_neg hc5] at h
              cases h
              exact hI

/-- `match_nav` preserves the navigation invariant. -/
theorem navInv_matchNav {book : Book} {st st2 : Bk} {k : KeyCode}
    (h : matchNav book st k = some st2) (hI : NavInv st) : NavInv st2 := by
  cases k <;> simp only [matchNav] at h
  all_goals first
    | exact navInv_navExitKey h hI
    | exact navInv_navConfirmKey h hI
    | exact navInv_navDownKey h hI
    | exact navInv_navUpKey h hI
    | exact navInv_navHomeKey h hI
    | exact navInv_navEndKey h hI
    | exact navInv_navCharKey h hI
    | (cases h; exact hI)

/-- A state change wrapped with the quit flag preserves the invariant when
the underlying change does. -/
theorem navInv_withFalse {o : Option Bk} {s : Bk} {b : Bool}
    (h : withFalse o = some (s, b))
    (ho : ∀ s2, o = some s2 → NavInv s2) : NavInv s := by
  cases o with
  | none => simp [withFalse] at h
  | some s2 =>
    simp only [withFalse] at h
    cases h
    exact ho _ rfl

/-- The read-mode End jump preserves the invariant. -/
theorem navInv_readEndKey {st s : Bk} {b : Bool}
    (h : readEndKey st = some (s, b)) (hI : NavInv st) : NavInv s := by
  unfold readEndKey at h
  split at h
  · cases h
  · cases h
    exact NavInv_of_fields hI rfl rfl rfl rfl rfl

/-- The character dispatch of `match_read` preserves the invariant. -/
theorem navInv_readCharKey {book : Book} {st s : Bk} {b : Bool} {c : Char}
    (h : readCharKey book st c = some (s, b)) (hI : NavInv st) : NavInv s := by
  unfold readCharKey at h
  by_cases hc0 : c = 'q'
  · rw [if_pos hc0] at h
    cases h; exact NavInv_of_fields hI rfl rfl rfl rfl rfl
  · rw [if_neg hc0] at h
    by_cases hc1 : c = '?'
    · rw [if_pos hc1] at h
      cases h; exact NavInv_of_fields hI rfl rfl rfl rfl rfl
    · rw [if_neg hc1] at h
      by_cases hc2 : c = '/'
      · rw [if_pos hc2] at h
        cases h; exact NavInv_of_fields hI rfl rfl rfl rfl rfl
      · rw [if_neg hc2] at h
        by_cases hc3 : c = 'N'
        · rw [if_pos hc3] at h
          exact navInv_withFalse h (fun s2 hs => navInv_reallySearch hs hI)
        · rw [if_neg hc3] at h
          by_cases hc4 : c = 'n'
          · rw [if_pos hc4] at h
            exact navInv_withFalse h (fun s2 hs => navInv_reallySearch hs hI)
          · rw [if_neg hc4] at h
            by_cases hc5 : c = 'G'
            · rw [if_pos hc5] at h
              exact navInv_readEndKey h hI
            · rw [if_neg hc5] at h
              by_cases hc6 : c = 'g'
              · rw [if_pos hc6] at h
                cases h; exact NavInv_of_fields hI rfl rfl rfl rfl rfl
              · rw [if_neg hc6] at h
                by_cases hc7 : c = 'd'
                · rw [if_pos hc7] at h
                  exact navInv_withFalse h (fun s2 hs => navInv_scrollDown hs hI)
                · rw [if_neg hc7] at h
                  by_cases hc8 : c = 'u'
                  · rw [if_pos hc8] at h
                    exact navInv_withFalse h (fun s2 hs => navInv_scrollUp hs hI)
                  · rw [if_neg hc8] at h
                    by_cases hc9 : c = 'k'
                    · rw [if_pos hc9] at h
                      exact navInv_withFalse h (fun s2 hs => navInv_scrollUp hs hI)
                    · rw [if_neg hc9] at h
                      by_cases hc10 : c = 'b' ∨ c = 'h'
                      · rw [if_pos hc10] at h
                        exact navInv_withFalse h (fun s2 hs => navInv_scrollUp hs hI)
                      · rw [if_neg hc10] at h
                        by_cases hc11 : c = 'j'
                        · rw [if_pos hc11] at h
                          exact navInv_withFalse h (fun s2 hs => navInv_scrollDown hs hI)
                        · rw [if_neg hc11] at h
                          by_cases hc12 : c = 'f' ∨ c = 'l' ∨ c = ' '
                          · rw [if_pos hc12] at h
                            exact navInv_withFalse h (fun s2 hs => navInv_scrollDown hs hI)
                          · rw [if_neg hc12] at h
                            cases h
                            exact NavInv_of_fields hI rfl rfl rfl rfl rfl

/-- `match_read` preserves the navigation invariant (for the state
component; the boolean is the quit flag). -/
theorem navInv_matchRead {book : Book} {st s : Bk} {b : Bool} {k : KeyCode}
    (h : matchRead book st k = some (s, b)) (hI : NavInv st) : NavInv s := by
  cases k <;> simp only [matchRead] at h
  all_goals first
    | (cases h; exact NavInv_of_fields hI rfl rfl rfl rfl rfl)
    | (split at h <;> (cases h; exact NavInv_of_fields hI rfl rfl rfl rfl rfl))
    | exact navInv_readEndKey h hI
    | exact navInv_withFalse h (fun s2 hs => navInv_startNav hs hI)
    | exact navInv_withFalse h (fun s2 hs => navInv_scrollDown hs hI)
    | exact navInv_withFalse h (fun s2 hs => navInv_scrollUp hs hI)
    | exact navInv_readCharKey h hI

/-- One event-loop step preserves the navigation invariant. -/
theorem navInv_step {book : Book} {st st2 : Bk} {e : Event}
    (h : step book st e = some st2) (he : GoodEv e) (hI : NavInv st) :
    NavInv st2 := by
  cases e with
  | key k =>
    simp only [step] at h
    split at h
    · -- Read mode
      split at h <;>
        first
          | exact Option.noConfusion h
          | (rename_i s2 hg
             cases h
             exact navInv_matchRead hg hI)
    · -- Help mode
      cases h
      exact NavInv_of_fields hI rfl rfl rfl rfl rfl
    · -- Nav mode
      exact navInv_matchNav h hI
    · -- Search mode
      exact navInv_matchSearch h hI
  | resize c r =>
    simp only [step] at h
    simp only [GoodEv] at he
    obtain ⟨hlt, h2, h3, h4, h5, h6, -⟩ := getChapter_fields h
    obtain ⟨i1, i2, i3, i4⟩ := hI
    unfold NavInv
    refine ⟨?_, ?_, ?_, ?_⟩
    · rw [h3]
      exact he
    · rw [h2, h4]
      exact hlt
    · rw [h5, h6]
      exact i3
    · rw [h5, h4]
      exact i4

/-- `Bk::new` establishes the navigation invariant. -/
theorem navInv_mkBk {book : Book} {toc : List (String × String)}
    {cols rows c p pad : Nat} {st : Bk} (hrows : 1 ≤ rows)
    (h : mkBk book toc cols rows c p pad = some st) : NavInv st := by
  unfold mkBk at h
  obtain ⟨hlt, h2, h3, h4, h5, h6, -⟩ := getChapter_fields h
  have hlt2 : c < toc.length := hlt
  unfold NavInv
  refine ⟨?_, ?_, ?_, ?_⟩
  · rw [h3]
    exact hrows
  · rw [h2, h4]
    exact hlt
  · rw [h5, h6]
  · rw [h5, h4]
    show 0 < toc.length
    omega

/-- Every reachable state satisfies the navigation invariant. -/
theorem reach_navInv {book : Book} {st : Bk} (h : Reach book st) : NavInv st := by
  induction h with
  | init toc cols rows c p pad st hrows hmk => exact navInv_mkBk hrows hmk
  | next st e st2 hr he hs ih => exact navInv_step hs he ih

/-- C3 counterexample: initialization does not validate the persisted
scroll position.  `Bk::new` on a one-line chapter with a persisted scroll
position of 5 yields a reachable state whose `pos` is neither a valid
wrapped-line index nor 0, refuting the stated invariant. -/
theorem C3_counterexample : ¬ C3Stated := by
  intro h
  have h0 := h book0 st0 (Reach.init toc0 80 24 0 5 3 st0 (by omega) (by rfl))
  rcases h0 with ⟨hpos, -⟩
  rcases hpos with hlt | ⟨hz, -⟩
  · simp [st0] at hlt
  · simp [st0] at hz

/-- C3 as amended: every reachable state (initialization and resizes
reporting at least one terminal row) keeps `chapter_idx` in range and the
nav cursor in range with `nav_top ≤ nav_cursor`.  The remaining parts of
the stated invariant do not hold: the persisted scroll position is adopted
unchecked, the End/page-boundary formula reaches `line_count` itself when
`visible_rows` divides it, a resize keeps the old scroll position against
the re-wrapped buffer, and a shrinking resize can break the
`nav_cursor ≤ nav_top + visible_rows - 1` window bound. -/
theorem C3_theorem (book : Book) (st : Bk) (h : Reach book st) :
    1 ≤ st.rows ∧ st.chapter_idx < st.toc.length ∧
    st.nav_top ≤ st.nav_idx ∧ st.nav_idx < st.toc.length :=
  reach_navInv h

/-- Witness for C3 at the concrete initial state `st0`. -/
theorem C3_witness :
    1 ≤ st0.rows ∧ st0.chapter_idx < st0.toc.length ∧
    st0.nav_top ≤ st0.nav_idx ∧ st0.nav_idx < st0.toc.length :=
  C3_theorem book0 st0 (Reach.init toc0 80 24 0 5 3 st0 (by omega) (by rfl))

/-- Splitting an iteration count. -/
theorem iterOpt_add (f : Bk → Option Bk) :
    ∀ (a b : Nat) (st : Bk),
      iterOpt f (a + b) st =
        match iterOpt f a st with
        | none => none
        | some s => iterOpt f b s := by
  intro a
  induction a with
  | zero => intro b st; simp [iterOpt]
  | succ a ih =>
    intro b st
    rw [show a + 1 + b = (a + b) + 1 by omega]
    simp only [iterOpt]
    cases f st with
    | none => rfl
    | some s => exact ih b s

/-- `scroll_down` in the advancing branch. -/
theorem scrollDown_advance {book : Book} {st : Bk} {n : Nat}
    (h1 : st.pos ≤ st.chapter.length)
    (h2 : st.rows < st.chapter.length - st.pos) :
    scrollDown book st n = some { st with pos := st.pos + n } := by
  unfold scrollDown
  rw [if_neg (by omega), if_pos h2]

/-- At the final page boundary of the last chapter `scroll_down` is a
no-op for every step size. -/
theorem scrollDown_stuck {book : Book} {st : Bk} (h1 : 1 ≤ st.rows)
    (hlast : st.chapter_idx + 1 = st.toc.length)
    (hpos : st.pos = ((st.chapter.length - 1) / st.rows) * st.rows) :
    ∀ n, scrollDown book st n = some st := by
  intro n
  obtain ⟨K, hK⟩ : ∃ K, (st.chapter.length - 1) / st.rows = K := ⟨_, rfl⟩
  rw [hK] at hpos
  have e3 : K * st.rows ≤ st.chapter.length - 1 := by
    rw [← hK]
    exact Nat.div_mul_le_self _ _
  have hdm := Nat.div_add_mod (st.chapter.length - 1) st.rows
  rw [hK] at hdm
  rw [Nat.mul_comm] at hdm
  have hml := Nat.mod_lt (st.chapter.length - 1) (show 0 < st.rows by omega)
  unfold scrollDown
  rw [if_neg (by omega), if_neg (by omega), if_neg (by omega), if_neg (by omega)]

/-- Repeated page-down inside one chapter reaches the final page
boundary `((line_count - 1) / rows) * rows`. -/
theorem scrollDown_pages (book : Book) :
    ∀ (m : Nat) (st : Bk), 1 ≤ st.rows →
      m ≤ (st.chapter.length - 1) / st.rows →
      st.pos = ((st.chapter.length - 1) / st.rows - m) * st.rows →
      iterOpt (fun s => scrollDown book s s.rows) m st =
        some { st with pos := ((st.chapter.length - 1) / st.rows) * st.rows } := by
  intro m
  induction m with
  | zero =>
    intro st _ _ hpos
    rw [Nat.sub_zero] at hpos
    simp only [iterOpt]
    rw [← hpos]
  | succ m ih =>
    intro st h1 hm hpos
    obtain ⟨K, hK⟩ : ∃ K, (st.chapter.length - 1) / st.rows = K := ⟨_, rfl⟩
    rw [hK] at hm hpos ⊢
    have e3 : K * st.rows ≤ st.chapter.length - 1 := by
      rw [← hK]
      exact Nat.div_mul_le_self _ _
    have hKm : K - m = K - (m + 1) + 1 := by omega
    have e1 : (K - (m + 1)) * st.rows + st.rows = (K - m) * st.rows := by
      rw [hKm, Nat.succ_mul]
    have e2 : (K - m) * st.rows ≤ K * st.rows :=
      Nat.mul_le_mul_right _ (by omega)
    have hlen : (K - (m + 1)) * st.rows + st.rows ≤ st.chapter.length - 1 := by
      rw [e1]
      exact le_trans e2 e3
    have hposle : st.pos ≤ st.chapter.length := by
      rw [hpos]
      omega
    have hadv : st.rows < st.chapter.length - st.pos := by
      rw [hpos]
      omega
    simp only [iterOpt]
    rw [scrollDown_advance hposle hadv, ← hK]
    exact ih { st with pos := st.pos + st.rows } h1
      (show m ≤ (st.chapter.length - 1) / st.rows by rw [hK]; omega)
      (show st.pos + st.rows = ((st.chapter.length - 1) / st.rows - m) * st.rows by
        rw [hK, hpos]
        exact e1)

/-- Evaluation form of `get_chapter` under its success conditions. -/
theorem getChapter_eval {book : Book} {st : Bk} {idx : Nat} {e : String × String}
    (hent : st.toc[idx]? = some e) (hpad : 2 * st.pad ≤ st.cols) :
    getChapter book st idx =
      some { st with chapter := book (st.cols - 2 * st.pad) e.2,
                     chapter_idx := idx } := by
  unfold getChapter
  rw [hent]
  show (if 2 * st.pad ≤ st.cols
        then some { st with chapter := book (st.cols - 2 * st.pad) e.2,
                            chapter_idx := idx }
        else none) = _
  rw [if_pos hpad]

/-- From the final page boundary of a non-final chapter, one page-down
loads the next chapter at scroll position 0. -/
theorem scrollDown_switch (book : Book) (st : Bk) (e2 : String × String)
    (h1 : 1 ≤ st.rows)
    (hpos : st.pos = ((st.chapter.length - 1) / st.rows) * st.rows)
    (hlt : st.chapter_idx + 1 < st.toc.length)
    (hent : st.toc[st.chapter_idx + 1]? = some e2)
    (hpad : 2 * st.pad ≤ st.cols) :
    scrollDown book st st.rows =
      some { st with chapter := book (st.cols - 2 * st.pad) e2.2,
                     chapter_idx := st.chapter_idx + 1, pos := 0 } := by
  obtain ⟨K, hK⟩ : ∃ K, (st.chapter.length - 1) / st.rows = K := ⟨_, rfl⟩
  rw [hK] at hpos
  have e3 : K * st.rows ≤ st.chapter.length - 1 := by
    rw [← hK]
    exact Nat.div_mul_le_self _ _
  have hdm := Nat.div_add_mod (st.chapter.length - 1) st.rows
  rw [hK] at hdm
  rw [Nat.mul_comm] at hdm
  have hml := Nat.mod_lt (st.chapter.length - 1) (show 0 < st.rows by omega)
  unfold scrollDown
  rw [if_neg (by omega), if_neg (by omega), if_neg (by omega), if_pos (by omega),
    getChapter_eval hent hpad]

/-- Page-down eventually reaches the last chapter's final page boundary
and sticks there: the trek across the remaining `d` chapters. -/
theorem scrollDown_trek {book : Book} :
    ∀ (d : Nat) (st : Bk), Loaded book st → 1 ≤ st.rows → st.pos = 0 →
      st.chapter_idx + d + 1 = st.toc.length →
      ∃ k st2, iterOpt (fun s => scrollDown book s s.rows) k st = some st2 ∧
        st2.chapter_idx + 1 = st2.toc.length ∧ st2.toc = st.toc ∧
        st2.pos = ((st2.chapter.length - 1) / st2.rows) * st2.rows ∧
        ∀ n, scrollDown book st2 n = some st2 := by
  intro d
  induction d with
  | zero =>
    intro st hL h1 hp hc
    refine ⟨(st.chapter.length - 1) / st.rows,
      { st with pos := ((st.chapter.length - 1) / st.rows) * st.rows },
      ?_, hc, rfl, rfl, ?_⟩
    · exact scrollDown_pages book _ st h1 (le_refl _)
        (by rw [Nat.sub_self, Nat.zero_mul]; exact hp)
    · exact scrollDown_stuck h1 hc rfl
  | succ d ih =>
    intro st hL h1 hp hc
    have hW := scrollDown_pages book ((st.chapter.length - 1) / st.rows)
      st h1 (le_refl _) (by rw [Nat.sub_self, Nat.zero_mul]; exact hp)
    obtain ⟨entry, hent, hpad, hch⟩ := hL
    obtain ⟨e2, he2⟩ : ∃ e2, st.toc[st.chapter_idx + 1]? = some e2 := by
      cases hq : st.toc[st.chapter_idx + 1]? with
      | none =>
        have := List.getElem?_eq_none_iff.1 hq
        omega
      | some e2 => exact ⟨e2, rfl⟩
    have hswitch := scrollDown_switch book
      { st with pos := ((st.chapter.length - 1) / st.rows) * st.rows }
      e2 h1 rfl (show st.chapter_idx + 1 < st.toc.length by omega) he2 hpad
    have ih2 := ih
      { st with chapter := book (st.cols - 2 * st.pad) e2.2,
                chapter_idx := st.chapter_idx + 1, pos := 0 }
      ⟨e2, he2, hpad, rfl⟩ h1 rfl
      (show st.chapter_idx + 1 + d + 1 = st.toc.length by omega)
    obtain ⟨k2, st2, hit2, hb, htoc2, hpos2, hstk⟩ := ih2
    refine ⟨(st.chapter.length - 1) / st.rows + (k2 + 1), st2, ?_, hb,
      htoc2, hpos2, hstk⟩
    rw [iterOpt_add, hW]
    show iterOpt (fun s => scrollDown book s s.rows) (k2 + 1)
      { st with pos := ((st.chapter.length - 1) / st.rows) * st.rows } = some st2
    simp only [iterOpt]
    rw [hswitch]
    exact hit2

/-- On the concrete ten-line, five-row, single-chapter reader, page-down
only ever produces the positions 0 and 5. -/
theorem c7_closure :
    ∀ (k : Nat) (s st2 : Bk), (s = stA ∨ s = stA5) →
      iterOpt (fun s => scrollDown bookA s s.rows) k s = some st2 →
      st2 = stA ∨ st2 = stA5 := by
  intro k
  induction k with
  | zero =>
    intro s st2 hs h
    simp only [iterOpt] at h
    cases h
    exact hs
  | succ k ihk =>
    intro s st2 hs h
    rcases hs with rfl | rfl
    · exact ihk stA5 st2 (Or.inr rfl) h
    · exact ihk stA5 st2 (Or.inr rfl) h

/-- C7 counterexample: with ten wrapped lines and five visible rows,
page-down from the top stops at position 5, not at the claimed
`(line_count / visible_rows) * visible_rows = 10`: the stated boundary
formula overshoots exactly when `visible_rows` divides `line_count`. -/
theorem C7_counterexample : ¬ C7Stated := by
  intro h
  obtain ⟨k, st2, hiter, -, hpos, -⟩ :=
    h bookA stA ⟨("t", "p"), rfl, by decide, rfl⟩ (by decide) rfl rfl
  rcases c7_closure k stA st2 (Or.inl rfl) hiter with rfl | rfl
  · exact absurd hpos (by decide)
  · exact absurd hpos (by decide)

/-- C7 as amended: from the first chapter at position 0, repeatedly
paging down (scroll-down by `visible_rows`) eventually reaches the last
chapter at position `((line_count - 1) / visible_rows) * visible_rows` —
the boundary of the page holding the last line, which is `line_count`
lower by one full page when `visible_rows` divides `line_count` — and
every further scroll-down of any step size is a no-op. -/
theorem C7_theorem (book : Book) (st : Bk) (hL : Loaded book st)
    (h1 : 1 ≤ st.rows) (hc : st.chapter_idx = 0) (hp : st.pos = 0) :
    ∃ k st2, iterOpt (fun s => scrollDown book s s.rows) k st = some st2 ∧
      st2.chapter_idx + 1 = st.toc.length ∧
      st2.pos = ((st2.chapter.length - 1) / st2.rows) * st2.rows ∧
      ∀ n, scrollDown book st2 n = some st2 := by
  have hlen : 1 ≤ st.toc.length := by
    obtain ⟨entry, hent, -, -⟩ := hL
    obtain ⟨hh, -⟩ := List.getElem?_eq_some_iff.1 hent
    omega
  obtain ⟨k, st2, hiter, hlast, htoc, hpos, hstable⟩ :=
    scrollDown_trek (st.toc.length - 1) st hL h1 hp (by omega)
  refine ⟨k, st2, hiter, ?_, hpos, hstable⟩
  rw [← htoc]
  exact hlast

/-- Witness for C7 on the concrete two-chapter reader `stB`. -/
theorem C7_witness :
    ∃ k st2, iterOpt (fun s => scrollDown bookB s s.rows) k stB = some st2 ∧
      st2.chapter_idx + 1 = stB.toc.length ∧
      st2.pos = ((st2.chapter.length - 1) / st2.rows) * st2.rows ∧
      ∀ n, scrollDown bookB st2 n = some st2 :=
  C7_theorem bookB stB ⟨("x", "a"), rfl, by decide, rfl⟩ (by decide) rfl rfl
